import Mathlib

/-!
Verification of the Sprite-Editor mask engine (sprite_editor/roi.py,
sprite_editor/mask_processor.py, sprite_editor/widgets.py).

Shallow embedding conventions:
* numpy uint8 masks are `List (List Nat)` (row-major); RGBA rasters carry an
  explicit numpy shape `(h, w)`.
* Python ints are `Int`/`Nat`; float quantities (contour areas, aspect
  ratios) are `ℚ`, which represents the exact values the comparisons see.
* Python strings are `List Char` (`PyStr`).
* Fallible numpy indexing is `Except PyErr`; OpenCV calls that are external
  to the repository (findContours/contourArea/boundingRect, watershed,
  Python's format() engine) enter as explicit data or oracle parameters.
-/

/-- Python strings, modelled as lists of characters. -/
abbrev PyStr := List Char

/-- The last `n` elements of a list: Python `l[-n:]` (whole list when
`l.length ≤ n`). -/
def lastN (n : Nat) (l : List α) : List α := l.drop (l.length - n)

/-- A single RGBA pixel (numpy uint8 quadruple). -/
structure RGBA where
  r : Nat
  g : Nat
  b : Nat
  a : Nat
deriving DecidableEq, Repr

/-- An RGB triple (the `[:3]` slice of an RGBA pixel). -/
structure RGB where
  r : Nat
  g : Nat
  b : Nat
deriving DecidableEq, Repr

/-- A raster image together with its numpy shape `(h, w, 4)`. -/
structure Img where
  h : Nat
  w : Nat
  pix : List (List RGBA)
deriving DecidableEq, Repr

/-- Build an `Img` from row-major pixel data, deriving the numpy shape. -/
def mkImg (pix : List (List RGBA)) : Img :=
  ⟨pix.length, (pix.headD []).length, pix⟩

/-- A grayscale uint8 mask, row-major. -/
abbrev Mask := List (List Nat)

/-- An int32 label map (watershed markers / GrabCut labels), row-major. -/
abbrev LabelMap := List (List Int)

/-- Python exception kinds relevant to the mask engine. `invalidInput` is the
spec's `InvalidInput` condition; the code itself never raises it. -/
inductive PyErr where
  | indexError
  | valueError
  | invalidInput
deriving DecidableEq, Repr

/-- numpy 2-D indexing `img_np[i, j]` with Python negative-index wrap-around;
out-of-bounds indices raise `IndexError`. -/
def npGetPix (img : Img) (i j : Int) : Except PyErr RGBA :=
  let i2 : Int := if i < 0 then (img.h : Int) + i else i
  let j2 : Int := if j < 0 then (img.w : Int) + j else j
  if 0 ≤ i2 ∧ i2 < (img.h : Int) ∧ 0 ≤ j2 ∧ j2 < (img.w : Int) then
    Except.ok ((img.pix.getD i2.toNat []).getD j2.toNat ⟨0, 0, 0, 0⟩)
  else
    Except.error PyErr.indexError

/-- The `[:3]` slice of a pixel: drop the alpha channel. -/
def rgbOf (p : RGBA) : RGB := ⟨p.r, p.g, p.b⟩

/-- Squared Euclidean RGB distance between a pixel and one background sample.
The source compares `np.linalg.norm(...) > color_thresh`; we compare squared
distances against the squared (non-negative) threshold, which is equivalent. -/
def distSq (c s : RGB) : Int :=
  ((c.r : Int) - (s.r : Int)) ^ 2 + ((c.g : Int) - (s.g : Int)) ^ 2 +
    ((c.b : Int) - (s.b : Int)) ^ 2

/-- `np.min` over a list; the empty case (which numpy rejects) is unreachable
here because `get_bg_samples` always yields 7 samples. -/
def minList : List Int → Int
  | [] => 0
  | x :: xs => xs.foldl min x

/-- Minimum squared distance from a pixel to any background sample. -/
def minDistSq (c : RGB) (samples : List RGB) : Int :=
  minList (samples.map (distSq c))

/-- `MaskProcessor.__init__` parameters (mask_processor.py). `min_area` and
`max_area` are compared against float contour areas, hence `ℚ`. -/
structure MaskProcessor where
  color_thresh : Nat
  pad : Int
  kernel_size : Nat
  max_extract : Nat
  min_area : ℚ
  max_area : ℚ
  close_iter : Nat
  open_iter : Nat
  out_width : Nat
  out_height : Nat
deriving DecidableEq, Repr

/-- The default `MaskProcessor()` parameter set. -/
def defaultMaskProcessor : MaskProcessor :=
  ⟨40, 4, 5, 12, 500, 1000000, 2, 1, 128, 128⟩

/-- `MaskProcessor.get_bg_samples`: probe the four corners, two edge
midpoints and the center of the image (numpy indices `0`, `-1`, `h//2`,
`w//2`), keeping the RGB part of each probe. -/
def get_bg_samples (img : Img) : Except PyErr (List RGB) := do
  let p1 ← npGetPix img 0 0
  let p2 ← npGetPix img 0 (-1)
  let p3 ← npGetPix img (-1) 0
  let p4 ← npGetPix img (-1) (-1)
  let p5 ← npGetPix img ((img.h : Int) / 2) 0
  let p6 ← npGetPix img 0 ((img.w : Int) / 2)
  let p7 ← npGetPix img ((img.h : Int) / 2) ((img.w : Int) / 2)
  return [p1, p2, p3, p4, p5, p6, p7].map rgbOf

/-- Row indices covered by a `k × k` ones kernel anchored at `k / 2` over
position `c`, clipped to `[0, len)` (cv2 border handling is neutral for
min/max filters, so clipping is exact). -/
def clipWindow (k len c : Nat) : List Nat :=
  (List.range k).filterMap (fun d =>
    let r : Int := (c : Int) + (d : Int) - ((k / 2 : Nat) : Int)
    if 0 ≤ r ∧ r < (len : Int) then some r.toNat else none)

/-- All mask values under the kernel window centred at `(i, j)`. -/
def windowVals (m : Mask) (k i j : Nat) : List Nat :=
  (clipWindow k m.length i).flatMap (fun r =>
    let row := m.getD r []
    (clipWindow k row.length j).map (fun c => row.getD c 0))

/-- `cv2.dilate` with a `k × k` ones kernel: per-pixel window maximum. -/
def cvDilate (k : Nat) (m : Mask) : Mask :=
  (List.range m.length).map (fun i =>
    (List.range (m.getD i []).length).map (fun j =>
      (windowVals m k i j).foldr max 0))

/-- `cv2.erode` with a `k × k` ones kernel: per-pixel window minimum. -/
def cvErode (k : Nat) (m : Mask) : Mask :=
  (List.range m.length).map (fun i =>
    (List.range (m.getD i []).length).map (fun j =>
      (windowVals m k i j).foldr min 255))

/-- `cv2.morphologyEx(MORPH_CLOSE, kernel, iterations=n)`: `n` dilations
followed by `n` erosions. -/
def morphClose (k n : Nat) (m : Mask) : Mask :=
  (cvErode k)^[n] ((cvDilate k)^[n] m)

/-- `cv2.morphologyEx(MORPH_OPEN, kernel, iterations=n)`: `n` erosions
followed by `n` dilations. -/
def morphOpen (k n : Nat) (m : Mask) : Mask :=
  (cvDilate k)^[n] ((cvErode k)^[n] m)

/-- `MaskProcessor.gen_mask`: sample the background colors, threshold every
pixel on its minimum color distance to any sample (255 = foreground), then
apply closing and opening.  Exceptions coming out of the numpy probes
propagate to the caller. -/
def MaskProcessor.gen_mask (p : MaskProcessor) (img : Img) : Except PyErr Mask := do
  let samples ← get_bg_samples img
  let mask_fg := img.pix.map (fun row => row.map (fun px =>
    if minDistSq (rgbOf px) samples > (p.color_thresh : Int) ^ 2 then (255 : Nat) else 0))
  return morphOpen p.kernel_size p.open_iter (morphClose p.kernel_size p.close_iter mask_fg)

/-- `FrameROI` (roi.py).  The centred RGBA canvas (`img`) is omitted: no
claim concerns its pixel content.  `aspect_ratio = w / h` (0 when `h ≤ 0`),
and the mask-edit history starts as the one-element list `[mask]`. -/
structure FrameROI where
  mask : Mask
  x : Int
  y : Int
  w : Int
  h : Int
  area : ℚ
  idx : Nat
  aspect_ratio : ℚ
  selected : Bool
  tag : PyStr
  note : PyStr
  mask_edit_history : List Mask
  mask_edit_idx : Nat
deriving DecidableEq, Repr

/-- `FrameROI.__init__`. -/
def mkFrameROI (mask : Mask) (x y w h : Int) (area : ℚ) (idx : Nat)
    (tag note : PyStr) : FrameROI :=
  { mask := mask, x := x, y := y, w := w, h := h, area := area, idx := idx,
    aspect_ratio := if h > 0 then (w : ℚ) / (h : ℚ) else 0,
    selected := false, tag := tag, note := note,
    mask_edit_history := [mask], mask_edit_idx := 0 }

/-- `FrameROI.add_mask_to_history`: truncate everything after the pointer,
append the snapshot, and point at the end.  Note: no size cap. -/
def FrameROI.add_mask_to_history (r : FrameROI) (m : Mask) : FrameROI :=
  let hist0 := if r.mask_edit_idx < r.mask_edit_history.length - 1
               then r.mask_edit_history.take (r.mask_edit_idx + 1)
               else r.mask_edit_history
  let hist := hist0 ++ [m]
  { r with mask_edit_history := hist, mask_edit_idx := hist.length - 1 }

/-- `FrameROI.undo_mask`: step the pointer back and restore that snapshot;
returns `False` (state untouched) when already at the oldest snapshot. -/
def FrameROI.undo_mask (r : FrameROI) : Bool × FrameROI :=
  if r.mask_edit_idx > 0 then
    let i := r.mask_edit_idx - 1
    (true, { r with mask_edit_idx := i, mask := r.mask_edit_history.getD i [] })
  else
    (false, r)

/-- `FrameROI.redo_mask`: step the pointer forward and restore that snapshot;
returns `False` (state untouched) when already at the newest snapshot. -/
def FrameROI.redo_mask (r : FrameROI) : Bool × FrameROI :=
  if r.mask_edit_idx < r.mask_edit_history.length - 1 then
    let i := r.mask_edit_idx + 1
    (true, { r with mask_edit_idx := i, mask := r.mask_edit_history.getD i [] })
  else
    (false, r)

/-- One connected component as reported by OpenCV (`cv2.findContours` +
`cv2.contourArea` + `cv2.boundingRect`); these calls are external to the
repository, so their results enter `extract_rois` as data. -/
structure Contour where
  area : ℚ
  rx : Int
  ry : Int
  rw : Int
  rh : Int
deriving DecidableEq, Repr

/-- 2-D crop `m[y:y+h, x:x+w]`. -/
def crop2 (m : Mask) (y h x w : Nat) : Mask :=
  ((m.drop y).take h).map (fun row => (row.drop x).take w)

/-- The per-contour loop body of `MaskProcessor.extract_rois`: skip
out-of-range areas, pad and clamp the bounding box, crop the mask, and assign
sequential indices starting at `idx`.  The centred output canvas is omitted
(no claim concerns it). -/
def extractLoop (p : MaskProcessor) (img : Img) (mask_fg : Mask) :
    List Contour → Nat → List FrameROI
  | [], _ => []
  | cnt :: rest, idx =>
    if cnt.area < p.min_area ∨ cnt.area > p.max_area then
      extractLoop p img mask_fg rest idx
    else
      let x := max 0 (cnt.rx - p.pad)
      let y := max 0 (cnt.ry - p.pad)
      let w2 := min ((img.w : Int) - x) (cnt.rw + 2 * p.pad)
      let h2 := min ((img.h : Int) - y) (cnt.rh + 2 * p.pad)
      let roi_mask := crop2 mask_fg y.toNat h2.toNat x.toNat w2.toNat
      mkFrameROI roi_mask x y w2 h2 cnt.area idx [] [] ::
        extractLoop p img mask_fg rest (idx + 1)

/-- `MaskProcessor.extract_rois`: sort the components by contour area
descending (stable), keep the first `max_extract`, then run the extraction
loop with 1-based indices. -/
def MaskProcessor.extract_rois (p : MaskProcessor) (img : Img) (mask_fg : Mask)
    (contours : List Contour) : List FrameROI :=
  let sorted := contours.mergeSort (fun a b => decide (b.area ≤ a.area))
  extractLoop p img mask_fg (sorted.take p.max_extract) 1

/-- Sort keys accepted by `sort_rois` (`getattr` attribute names). -/
inductive SortKey where
  | idx
  | area
  | x
  | y
  | w
  | h
  | aspect_ratio
deriving DecidableEq, Repr

/-- The attribute value a sort key reads from a ROI, as the exact rational
the Python comparison sees. -/
def sortKeyVal (k : SortKey) (r : FrameROI) : ℚ :=
  match k with
  | SortKey.idx => (r.idx : ℚ)
  | SortKey.area => r.area
  | SortKey.x => (r.x : ℚ)
  | SortKey.y => (r.y : ℚ)
  | SortKey.w => (r.w : ℚ)
  | SortKey.h => (r.h : ℚ)
  | SortKey.aspect_ratio => r.aspect_ratio

/-- `sort_rois` (mask_processor.py): stable sort by the chosen attribute;
`reverse` is forced to `False` for the extraction-index key.  Python's
`sorted(..., reverse=True)` is the stable descending sort, i.e. the stable
sort under the `key b ≤ key a` comparator. -/
def sort_rois (rois : List FrameROI) (sortBy : SortKey) (reverse : Bool) :
    List FrameROI :=
  let reverse := if sortBy = SortKey.idx then false else reverse
  if reverse then
    rois.mergeSort (fun a b => decide (sortKeyVal sortBy b ≤ sortKeyVal sortBy a))
  else
    rois.mergeSort (fun a b => decide (sortKeyVal sortBy a ≤ sortKeyVal sortBy b))

/-- The `if range and not (lo <= v <= hi): continue` guard of `filter_rois`:
`True` exactly when a range is supplied and the value falls outside it. -/
def skipGuard (rng : Option (ℚ × ℚ)) (v : ℚ) : Bool :=
  match rng with
  | none => false
  | some (lo, hi) => !(decide (lo ≤ v) && decide (v ≤ hi))

/-- `filter_rois` (mask_processor.py), translated guard by guard. -/
def filter_rois (rois : List FrameROI)
    (area_range aspect_range x_range y_range : Option (ℚ × ℚ)) :
    List FrameROI :=
  match rois with
  | [] => []
  | r :: rest =>
    if skipGuard area_range r.area then
      filter_rois rest area_range aspect_range x_range y_range
    else if skipGuard aspect_range r.aspect_ratio then
      filter_rois rest area_range aspect_range x_range y_range
    else if skipGuard x_range (r.x : ℚ) then
      filter_rois rest area_range aspect_range x_range y_range
    else if skipGuard y_range (r.y : ℚ) then
      filter_rois rest area_range aspect_range x_range y_range
    else
      r :: filter_rois rest area_range aspect_range x_range y_range

/-- Spec-side membership test for one optional range: inclusive on both
endpoints, and an absent range imposes no constraint (§4.3). -/
def inRangeB (rng : Option (ℚ × ℚ)) (v : ℚ) : Bool :=
  match rng with
  | none => true
  | some (lo, hi) => decide (lo ≤ v) && decide (v ≤ hi)

/-- Spec-side restatement of `filter`: keep exactly the ROIs whose area,
aspect ratio, x and y each pass their supplied range inclusively. -/
def filter_rois_spec (rois : List FrameROI)
    (area_range aspect_range x_range y_range : Option (ℚ × ℚ)) :
    List FrameROI :=
  rois.filter (fun r =>
    inRangeB area_range r.area && inRangeB aspect_range r.aspect_ratio &&
      inRangeB x_range (r.x : ℚ) && inRangeB y_range (r.y : ℚ))

/-- The attribute a recognized filename placeholder reads. -/
inductive NameAttr where
  | idx
  | x
  | y
  | w
  | h
  | area
  | aspect_ratio
  | tag
  | note
deriving DecidableEq, Repr

/-- `PLACEHOLDER_MAP` (mask_processor.py), keyed on the text between the
brackets (the source stores the bracketed key and looks up
`'[' + name + ']'`, which is equivalent). -/
def placeholderMap : List (PyStr × NameAttr) :=
  [(("索引").data, NameAttr.idx), (("X").data, NameAttr.x),
   (("Y").data, NameAttr.y), (("宽").data, NameAttr.w),
   (("高").data, NameAttr.h), (("面积").data, NameAttr.area),
   (("长宽比").data, NameAttr.aspect_ratio), (("标签").data, NameAttr.tag),
   (("备注").data, NameAttr.note)]

/-- Dictionary lookup `PLACEHOLDER_MAP.get('[' + name + ']')`. -/
def lookupPlaceholder (name : PyStr) : Option NameAttr :=
  List.lookup name placeholderMap

/-- A Python value a placeholder can render: int, float (exact rational), or
string. -/
inductive PyVal where
  | vInt (n : Int)
  | vRat (q : ℚ)
  | vStr (s : PyStr)
deriving DecidableEq, Repr

/-- `getattr(roi, attr)` for the placeholder attributes. -/
def getAttrVal (r : FrameROI) : NameAttr → PyVal
  | NameAttr.idx => PyVal.vInt (r.idx : Int)
  | NameAttr.x => PyVal.vInt r.x
  | NameAttr.y => PyVal.vInt r.y
  | NameAttr.w => PyVal.vInt r.w
  | NameAttr.h => PyVal.vInt r.h
  | NameAttr.area => PyVal.vRat r.area
  | NameAttr.aspect_ratio => PyVal.vRat r.aspect_ratio
  | NameAttr.tag => PyVal.vStr r.tag
  | NameAttr.note => PyVal.vStr r.note

/-- Python `str(value)`.  Integers render exactly; floats with integral value
render as `n.0`; the decimal text of non-integral floats is approximated by
`num/den` (no claim depends on it). -/
def pyStr : PyVal → PyStr
  | PyVal.vInt n => (toString n).data
  | PyVal.vRat q =>
    if q.den = 1 then (toString q.num).data ++ (".0").data
    else (toString q.num).data ++ (("/").data ++ (toString q.den).data)
  | PyVal.vStr s => s

/-- Try to match the regex `\[([^\]:]+)(?::([^\]]+))?\]` right after an
opening bracket: a non-empty run of name characters, then either `]`, or `:`
followed by a non-empty run of spec characters and `]`.  Returns the two
groups and how many characters were consumed after the bracket. -/
def parsePH (rest : PyStr) : Option (PyStr × Option PyStr × Nat) :=
  let name := rest.takeWhile (fun c => c ≠ ']' ∧ c ≠ ':')
  if name.isEmpty then none
  else
    match rest.drop name.length with
    | ']' :: _ => some (name, none, name.length + 1)
    | ':' :: r2 =>
      let spec := r2.takeWhile (fun c => c ≠ ']')
      if spec.isEmpty then none
      else
        match r2.drop spec.length with
        | ']' :: _ => some (name, some spec, name.length + 1 + spec.length + 1)
        | _ => none
    | _ => none

/-- Scanner core of `finditer`, structurally recursive on a fuel bound (each
step consumes at least one character, so `l.length` fuel always suffices). -/
def findPHFuel : Nat → PyStr → List (PyStr × Option PyStr)
  | 0, _ => []
  | _ + 1, [] => []
  | fuel + 1, c :: rest =>
    if c = '[' then
      match parsePH rest with
      | some (name, spec, n) => (name, spec) :: findPHFuel fuel (rest.drop n)
      | none => findPHFuel fuel rest
    else
      findPHFuel fuel rest

/-- `placeholder_pattern.finditer(template)`: scan left to right for
non-overlapping matches of the placeholder regex. -/
def findPH (l : PyStr) : List (PyStr × Option PyStr) :=
  findPHFuel l.length l

/-- The literal text of a matched placeholder (`match.group(0)`). -/
def phText (name : PyStr) (spec : Option PyStr) : PyStr :=
  '[' :: (name ++ (match spec with
    | some sp => ':' :: sp
    | none => []) ++ [']'])

/-- Core of Python `s.replace(pat, repl)`, structurally recursive on a fuel
bound (each step consumes at least one character of `s`).  The degenerate
empty pattern never arises: placeholders have at least 3 characters. -/
def replaceGo (pat repl : PyStr) : Nat → PyStr → PyStr
  | 0, s => s
  | _ + 1, [] => []
  | fuel + 1, c :: rest =>
    match pat with
    | [] => c :: rest
    | p0 :: ptl =>
      if List.isPrefixOf (p0 :: ptl) (c :: rest) then
        repl ++ replaceGo (p0 :: ptl) repl fuel (rest.drop ptl.length)
      else
        c :: replaceGo (p0 :: ptl) repl fuel rest

/-- Python `rendered_name.replace(placeholder, formatted_value)`: replace
non-overlapping occurrences left to right. -/
def pyReplace (s pat repl : PyStr) : PyStr := replaceGo pat repl s.length s

/-- One iteration of the placeholder loop in `render_filename`: known
placeholders are substituted (an abstract `fmt` oracle stands for Python's
`format()` engine, falling back to `str(value)` when it raises); unknown
placeholders only log a warning and leave the text untouched. -/
def substOne (fmt : PyVal → PyStr → Except Unit PyStr) (roi : FrameROI)
    (acc : PyStr) (m : PyStr × Option PyStr) : PyStr :=
  match lookupPlaceholder m.1 with
  | some attr =>
    let v := getAttrVal roi attr
    let formatted := match m.2 with
      | some sp =>
        match fmt v sp with
        | Except.ok s => s
        | Except.error _ => pyStr v
      | none => pyStr v
    pyReplace acc (phText m.1 m.2) formatted
  | none => acc

/-- The characters `re.sub` strips from filenames: `[\\/:*?"<>|]`. -/
def invalidChars : List Char := ['\\', '/', ':', '*', '?', '"', '<', '>', '|']

/-- `re.sub(r'[\\/:*?"<>|]', '_', name)`. -/
def sanitizeName (l : PyStr) : PyStr :=
  l.map (fun c => if invalidChars.contains c then '_' else c)

/-- Python `s.rfind(c)`: index of the last occurrence, `-1` when absent. -/
def rfindIdx (c : Char) (l : PyStr) : Int :=
  match l.reverse.findIdx? (fun x => x = c) with
  | some k => (l.length : Int) - 1 - (k : Int)
  | none => -1

/-- `os.path.splitext` (posix): split at the last dot after the last slash,
unless the basename up to that dot is entirely dots. -/
def splitext (p : PyStr) : PyStr × PyStr :=
  let si := rfindIdx '/' p
  let di := rfindIdx '.' p
  if di > si ∧
      (((p.drop (si + 1).toNat).take (di - (si + 1)).toNat).any (fun ch => ch ≠ '.')) then
    (p.take di.toNat, p.drop di.toNat)
  else
    (p, [])

/-- The extension-fixing tail of `render_filename`: append `.png` when there
is no extension, replace any extension that is not `.png`
(case-insensitively), otherwise keep the name. -/
def ensurePng (name : PyStr) : PyStr :=
  if !(((splitext name).2).contains '.') then
    name ++ (".png").data
  else if !(List.isSuffixOf ((".png").data) (name.map Char.toLower)) then
    (splitext name).1 ++ (".png").data
  else
    name

/-- The pure post-processing of `render_filename`: sanitize, then enforce the
`.png` suffix. -/
def postProcess (name : PyStr) : PyStr := ensurePng (sanitizeName name)

/-- `render_filename` (mask_processor.py): substitute every regex match of
the original template into the running name, then sanitize and enforce the
extension.  `fmt` abstracts Python's format-spec engine. -/
def render_filename (fmt : PyVal → PyStr → Except Unit PyStr)
    (template : PyStr) (roi : FrameROI) : PyStr :=
  postProcess ((findPH template).foldl (substOne fmt roi) template)

/-- Editor modes of `MaskEditWidget.set_mode` (widgets.py). -/
inductive Mode where
  | draw
  | erase
  | grabcut_rect
  | grabcut_refine
  | watershed_mark
deriving DecidableEq, Repr

/-- Marker polarity used by GrabCut refinement and watershed marking. -/
inductive Polarity where
  | fg
  | bg
deriving DecidableEq, Repr

/-- The mutable state of `MaskEditWidget` that the mask engine touches.
Display-only members (pixmaps, zoom, cursors, Qt signals) are omitted. -/
structure MaskEditWidget where
  mask : Option Mask
  base_img : Option Img
  history : List Mask
  history_idx : Nat
  mode : Mode
  drawing : Bool
  drawing_rect : Bool
  panning : Bool
  refine_mode : Polarity
  gc_initialized : Bool
  gc_mask : Option LabelMap
  gc_bgd_model : Option Unit
  gc_fgd_model : Option Unit
  watershed_markers : Option LabelMap
  watershed_marker_mode : Polarity
deriving DecidableEq, Repr

/-- `MAX_HISTORY_SIZE` in `MaskEditWidget.push_history`. -/
def MAX_HISTORY_SIZE : Nat := 32

/-- `np.zeros(mask.shape[:2], dtype=np.int32)`. -/
def zerosLike (m : Mask) : LabelMap :=
  m.map (fun row => row.map (fun _ => (0 : Int)))

/-- `MaskEditWidget.set_mode`: no-op when the mode is unchanged; otherwise
switch mode, reset the drag flags, and per target mode reset the seeded
states (entering `watershed_mark` allocates a zero marker map of the mask's
shape; leaving to a standard mode clears the markers). -/
def MaskEditWidget.set_mode (s : MaskEditWidget) (m : Mode) : MaskEditWidget :=
  if m = s.mode then s
  else
    let s1 := { s with mode := m, drawing := false, drawing_rect := false,
                       panning := false }
    match m with
    | Mode.grabcut_refine => { s1 with refine_mode := Polarity.fg }
    | Mode.grabcut_rect => s1
    | Mode.watershed_mark =>
      { s1 with gc_initialized := false, gc_mask := none,
                watershed_markers := s1.mask.map zerosLike }
    | _ =>
      { s1 with gc_initialized := false, gc_mask := none,
                watershed_markers := none }

/-- `MaskEditWidget.push_history`: guard against a missing mask, truncate the
redo tail, append the current mask, advance the pointer, and evict the oldest
snapshots beyond `MAX_HISTORY_SIZE` (re-pointing at the end). -/
def MaskEditWidget.push_history (s : MaskEditWidget) : MaskEditWidget :=
  match s.mask with
  | none => s
  | some m =>
    let hist0 := if s.history_idx < s.history.length - 1
                 then s.history.take (s.history_idx + 1)
                 else s.history
    let hist := hist0 ++ [m]
    let idx := s.history_idx + 1
    if hist.length > MAX_HISTORY_SIZE then
      let hist2 := lastN MAX_HISTORY_SIZE hist
      { s with history := hist2, history_idx := hist2.length - 1 }
    else
      { s with history := hist, history_idx := idx }

/-- `MaskEditWidget.undo`: when not at the oldest snapshot, step the pointer
back, restore that snapshot, reset the GrabCut session and leave
`grabcut_refine`; otherwise return `False` with the state untouched. -/
def MaskEditWidget.undo (s : MaskEditWidget) : Bool × MaskEditWidget :=
  if s.history_idx > 0 then
    let i := s.history_idx - 1
    let s1 := { s with history_idx := i, mask := some (s.history.getD i []) }
    let s2 := { s1 with gc_initialized := false, gc_mask := none }
    let s3 := if s2.mode = Mode.grabcut_refine then s2.set_mode Mode.draw else s2
    (true, s3)
  else
    (false, s)

/-- `MaskEditWidget.redo`: mirror image of `undo` toward newer snapshots. -/
def MaskEditWidget.redo (s : MaskEditWidget) : Bool × MaskEditWidget :=
  if s.history_idx < s.history.length - 1 then
    let i := s.history_idx + 1
    let s1 := { s with history_idx := i, mask := some (s.history.getD i []) }
    let s2 := { s1 with gc_initialized := false, gc_mask := none }
    let s3 := if s2.mode = Mode.grabcut_refine then s2.set_mode Mode.draw else s2
    (true, s3)
  else
    (false, s)

/-- `cv2.resize(..., interpolation=cv2.INTER_NEAREST)` to `H × W`
(models the external call; claims never reach the resize path). -/
def resizeNN (m : Mask) (H W : Nat) : Mask :=
  (List.range H).map (fun i =>
    (List.range W).map (fun j =>
      (m.getD (i * m.length / H) []).getD (j * (m.headD []).length / W) 0))

/-- The numpy shape of a mask. -/
def maskShape (m : Mask) : Nat × Nat := (m.length, (m.headD []).length)

/-- `MaskEditWidget.set_mask`: reset the GrabCut session (leaving
`grabcut_refine` if active), adopt the new mask (nearest-neighbor resampled
when its shape disagrees with the base image), and push it to history. -/
def MaskEditWidget.set_mask (s : MaskEditWidget) (m : Mask) : MaskEditWidget :=
  let s1 := { s with gc_initialized := false, gc_mask := none,
                     gc_bgd_model := none, gc_fgd_model := none }
  let s2 := if s1.mode = Mode.grabcut_refine then s1.set_mode Mode.draw else s1
  let s3 := match s2.base_img with
    | some img =>
      if maskShape m ≠ (img.h, img.w) then
        { s2 with mask := some (resizeNN m img.h img.w) }
      else
        { s2 with mask := some m }
    | none => { s2 with mask := some m }
  s3.push_history

/-- Does a label value occur in the marker map (`v in np.unique(markers)`). -/
def hasLabel (mk : LabelMap) (v : Int) : Bool :=
  mk.any (fun row => row.any (fun x => x = v))

/-- `output_mask = np.zeros_like(self.mask); output_mask[markers == 1] = 255`
(zero-initialised over the committed mask's shape, which equals the marker
shape by construction). -/
def outputMaskOf (mask : Mask) (markers : LabelMap) : Mask :=
  (List.range mask.length).map (fun i =>
    (List.range ((mask.getD i []).length)).map (fun j =>
      if (markers.getD i []).getD j 0 = 1 then (255 : Nat) else 0))

/-- Outcome reported to the caller by `run_watershed_segmentation` (log/
message-box traffic). -/
inductive WSOutcome where
  | unavailable
  | missingSeeds
  | segmented
  | algError
deriving DecidableEq, Repr

/-- `MaskEditWidget.run_watershed_segmentation`.  `ws` abstracts the external
`cv2.watershed` call (its possible exception included).  Missing markers or
base image log an error and return; a marker map without both a foreground
(1) and a background (2) seed warns the caller and returns — in both cases
before the try/finally, so the state is untouched.  Otherwise the result
mask is derived from the watershed labels and committed via `set_mask`, or
the exception is reported — and the `finally` block drops back to `draw` and
discards the markers in either case. -/
def MaskEditWidget.run_watershed_segmentation
    (ws : Img → LabelMap → Except Unit LabelMap) (s : MaskEditWidget) :
    WSOutcome × MaskEditWidget :=
  match s.watershed_markers, s.base_img with
  | none, _ => (WSOutcome.unavailable, s)
  | some _, none => (WSOutcome.unavailable, s)
  | some markers, some img =>
    if !(hasLabel markers 1) || !(hasLabel markers 2) then
      (WSOutcome.missingSeeds, s)
    else
      match ws img markers with
      | Except.ok markers2 =>
        match s.mask with
        | some cur =>
          let s1 := MaskEditWidget.set_mask s (outputMaskOf cur markers2)
          let s2 := MaskEditWidget.set_mode s1 Mode.draw
          (WSOutcome.segmented, { s2 with watershed_markers := none })
        | none =>
          let s2 := MaskEditWidget.set_mode s Mode.draw
          (WSOutcome.algError, { s2 with watershed_markers := none })
      | Except.error _ =>
        let s2 := MaskEditWidget.set_mode s Mode.draw
        (WSOutcome.algError, { s2 with watershed_markers := none })

/-- One mask commit as performed by every editing path (the mask buffer is
mutated in place, then `push_history` snapshots it). -/
def commitMask (s : MaskEditWidget) (m : Mask) : MaskEditWidget :=
  MaskEditWidget.push_history { s with mask := some m }

/-- A sequence of consecutive mask commits. -/
def commitAll (s : MaskEditWidget) (ms : List Mask) : MaskEditWidget :=
  ms.foldl commitMask s

/-- `n` consecutive invocations of `undo` (dropping the returned flags). -/
def undoN (n : Nat) (s : MaskEditWidget) : MaskEditWidget :=
  (fun t => (MaskEditWidget.undo t).2)^[n] s

/-- A freshly constructed editor over a 1×1 mask (as `__init__` leaves it). -/
def widget0 : MaskEditWidget :=
  { mask := some [[0]], base_img := some (mkImg [[⟨0, 0, 0, 255⟩]]),
    history := [[[0]]], history_idx := 0, mode := Mode.draw,
    drawing := false, drawing_rect := false, panning := false,
    refine_mode := Polarity.fg, gc_initialized := false, gc_mask := none,
    gc_bgd_model := none, gc_fgd_model := none, watershed_markers := none,
    watershed_marker_mode := Polarity.fg }

/-- 33 distinct mask snapshots to commit in a row. -/
def ms33 : List Mask := (List.range 33).map (fun i => [[i + 1]])

/-- A concrete extracted ROI. -/
def roi0 : FrameROI := mkFrameROI [[255]] 2 3 4 5 (500 : ℚ) 1 [] []

/-- The editor in watershed-marking mode with an all-zero marker map
(no seeds drawn yet). -/
def wsNoSeeds : MaskEditWidget :=
  { widget0 with mode := Mode.watershed_mark, watershed_markers := some [[0]] }

/-- The editor in watershed-marking mode with one foreground and one
background seed marked. -/
def wsSeeded : MaskEditWidget :=
  { widget0 with
    mask := some [[0], [0]]
    base_img := some (mkImg [[⟨9, 9, 9, 255⟩], [⟨1, 1, 1, 255⟩]])
    history := [[[0], [0]]]
    mode := Mode.watershed_mark
    watershed_markers := some [[1], [2]] }

/-- A benign stand-in for `cv2.watershed`: returns the marker map as is. -/
def wsOracle : Img → LabelMap → Except Unit LabelMap :=
  fun _ markers => Except.ok markers

/-- A format oracle that always raises, to exercise the fallback path. -/
def fmtRaises : PyVal → PyStr → Except Unit PyStr :=
  fun _ _ => Except.error ()

/-- A 1×1 all-background test image. -/
def img1 : Img := mkImg [[⟨0, 0, 0, 255⟩]]

/-- Every value of the mask is exactly 0 or 255. -/
def IsBin (m : Mask) : Prop := ∀ row ∈ m, ∀ v ∈ row, v = 0 ∨ v = 255

/-- A fresh editor whose mask buffer was just redrawn (pre-commit). -/
def sPush : MaskEditWidget := { widget0 with mask := some [[7]] }

/-- The guard of `filter_rois` is the negated inclusive-range test. -/
theorem skipGuard_eq_not_inRangeB (rng : Option (ℚ × ℚ)) (v : ℚ) :
    skipGuard rng v = !(inRangeB rng v) := by
  cases rng with
  | none => rfl
  | some ab => cases ab; rfl

/-- C3: the spec demands an `InvalidInput` failure on a zero-area image, but
`gen_mask` instead raises an uncontrolled `IndexError` from the very first
background probe (`img_np[0,0,:3]` on an empty axis) — the code never
produces an `InvalidInput` condition. -/
theorem spec_c3_zero_area_uncontrolled :
    MaskProcessor.gen_mask defaultMaskProcessor (mkImg []) =
      Except.error PyErr.indexError
    ∧ MaskProcessor.gen_mask defaultMaskProcessor (mkImg []) ≠
      Except.error PyErr.invalidInput := by
  have h1 : MaskProcessor.gen_mask defaultMaskProcessor (mkImg []) =
      Except.error PyErr.indexError := rfl
  refine ⟨h1, ?_⟩
  rw [h1]
  simp

/-- C8: `filter_rois` returns exactly the ROIs whose area, aspect ratio, x
and y each lie inclusively within the corresponding supplied range, with an
absent range imposing no constraint (the translated guard-by-guard loop
coincides with the spec-side inclusive filter). -/
theorem spec_c8_filter_inclusive :
    ∀ (rois : List FrameROI) (ar asr xr yr : Option (ℚ × ℚ)),
      filter_rois rois ar asr xr yr = filter_rois_spec rois ar asr xr yr := by
  intro rois ar asr xr yr
  induction rois with
  | nil => rfl
  | cons r rest ih =>
    cases h1 : inRangeB ar r.area <;>
      cases h2 : inRangeB asr r.aspect_ratio <;>
      cases h3 : inRangeB xr (r.x : ℚ) <;>
      cases h4 : inRangeB yr (r.y : ℚ) <;>
      simp [filter_rois, filter_rois_spec, List.filter_cons,
        skipGuard_eq_not_inRangeB, h1, h2, h3, h4] <;>
      simpa [filter_rois_spec] using ih

/-- C9: sorting by the extraction-index key ignores the `descending` flag —
the result is the ascending index order either way. -/
theorem spec_c9_idx_sort_ignores_reverse :
    ∀ (rois : List FrameROI) (reverse : Bool),
      sort_rois rois SortKey.idx reverse = sort_rois rois SortKey.idx false := by
  intro rois reverse
  simp [sort_rois]

/-- C10: `undo` at the oldest snapshot and `redo` at the newest snapshot
return `False` and leave the mask, the snapshot list and the pointer
untouched, both for the editor widget and for the ROI-level history. -/
theorem spec_c10_undo_redo_boundaries :
    (∀ s : MaskEditWidget, s.history_idx = 0 →
      MaskEditWidget.undo s = (false, s))
    ∧ (∀ s : MaskEditWidget, s.history_idx = s.history.length - 1 →
      MaskEditWidget.redo s = (false, s))
    ∧ (∀ r : FrameROI, r.mask_edit_idx = 0 →
      FrameROI.undo_mask r = (false, r))
    ∧ (∀ r : FrameROI, r.mask_edit_idx = r.mask_edit_history.length - 1 →
      FrameROI.redo_mask r = (false, r)) := by
  refine ⟨?_, ?_, ?_, ?_⟩
  · intro s h
    simp [MaskEditWidget.undo, h]
  · intro s h
    simp [MaskEditWidget.redo, h]
  · intro r h
    simp [FrameROI.undo_mask, h]
  · intro r h
    simp [FrameROI.redo_mask, h]

/-- C10 witness: the boundary no-ops evaluated on a concrete fresh editor
and a concrete fresh ROI. -/
theorem spec_c10_witness :
    MaskEditWidget.undo widget0 = (false, widget0)
    ∧ MaskEditWidget.redo widget0 = (false, widget0)
    ∧ FrameROI.undo_mask roi0 = (false, roi0)
    ∧ FrameROI.redo_mask roi0 = (false, roi0) :=
  ⟨spec_c10_undo_redo_boundaries.1 widget0 (by decide),
   spec_c10_undo_redo_boundaries.2.1 widget0 (by decide),
   spec_c10_undo_redo_boundaries.2.2.1 roi0 (by decide),
   spec_c10_undo_redo_boundaries.2.2.2 roi0 (by decide)⟩

/-- The indices assigned by the extraction loop are consecutive from its
starting index. -/
theorem extractLoop_map_idx (p : MaskProcessor) (img : Img) (mfg : Mask) :
    ∀ (cnts : List Contour) (idx : Nat),
      (extractLoop p img mfg cnts idx).map FrameROI.idx =
        List.range' idx (extractLoop p img mfg cnts idx).length := by
  intro cnts
  induction cnts with
  | nil => intro idx; rfl
  | cons c rest ih =>
    intro idx
    by_cases h : c.area < p.min_area ∨ c.area > p.max_area
    · simp only [extractLoop, if_pos h]
      exact ih idx
    · simp only [extractLoop, if_neg h, List.map_cons, List.length_cons]
      rw [List.range'_succ]
      simp only [mkFrameROI, List.cons.injEq]
      exact ⟨trivial, ih (idx + 1)⟩

/-- The extraction loop emits at most one ROI per candidate contour. -/
theorem extractLoop_length_le (p : MaskProcessor) (img : Img) (mfg : Mask) :
    ∀ (cnts : List Contour) (idx : Nat),
      (extractLoop p img mfg cnts idx).length ≤ cnts.length := by
  intro cnts
  induction cnts with
  | nil => intro idx; exact Nat.le_refl 0
  | cons c rest ih =>
    intro idx
    by_cases h : c.area < p.min_area ∨ c.area > p.max_area
    · simp only [extractLoop, if_pos h, List.length_cons]
      exact Nat.le_succ_of_le (ih idx)
    · simp only [extractLoop, if_neg h, List.length_cons]
      exact Nat.succ_le_succ (ih (idx + 1))

/-- Every ROI the extraction loop emits has its contour area inside
`[min_area, max_area]`. -/
theorem extractLoop_area_bounds (p : MaskProcessor) (img : Img) (mfg : Mask) :
    ∀ (cnts : List Contour) (idx : Nat),
      ∀ r ∈ extractLoop p img mfg cnts idx,
        p.min_area ≤ r.area ∧ r.area ≤ p.max_area := by
  intro cnts
  induction cnts with
  | nil => intro idx r hr; cases hr
  | cons c rest ih =>
    intro idx r hr
    by_cases h : c.area < p.min_area ∨ c.area > p.max_area
    · rw [extractLoop, if_pos h] at hr
      exact ih idx r hr
    · rw [extractLoop, if_neg h] at hr
      push_neg at h
      rcases List.mem_cons.mp hr with hr | hr
      · subst hr
        simpa [mkFrameROI] using h
      · exact ih (idx + 1) r hr

/-- The areas of the emitted ROIs form a sublist of the candidate areas (in
order): skipped contours are simply dropped. -/
theorem extractLoop_area_sublist (p : MaskProcessor) (img : Img) (mfg : Mask) :
    ∀ (cnts : List Contour) (idx : Nat),
      List.Sublist ((extractLoop p img mfg cnts idx).map FrameROI.area)
        (cnts.map Contour.area) := by
  intro cnts
  induction cnts with
  | nil => intro idx; simp [extractLoop]
  | cons c rest ih =>
    intro idx
    by_cases h : c.area < p.min_area ∨ c.area > p.max_area
    · rw [extractLoop, if_pos h]
      exact List.Sublist.cons c.area (ih idx)
    · rw [extractLoop, if_neg h]
      simp only [List.map_cons]
      exact List.Sublist.cons₂ c.area (ih (idx + 1))

/-- `sorted(contours, key=cv2.contourArea, reverse=True)` yields areas in
descending order. -/
theorem mergeSort_area_desc (cnts : List Contour) :
    ((cnts.mergeSort (fun a b => decide (b.area ≤ a.area))).map
      Contour.area).Pairwise (fun a b : ℚ => b ≤ a) := by
  have hs := @List.sorted_mergeSort Contour
    (fun a b : Contour => decide (b.area ≤ a.area))
    (fun a b c hab hbc => by
      simp only [decide_eq_true_eq] at hab hbc ⊢
      exact le_trans hbc hab)
    (fun a b => by
      rcases le_total a.area b.area with h | h
      · simp [h]
      · simp [h])
    cnts
  rw [List.pairwise_map]
  exact hs.imp (fun {a b} hab => by simpa using hab)

/-- C5: `extract_rois` returns at most `max_extract` ROIs, every returned
ROI's area lies inclusively within `[min_area, max_area]`, and the returned
areas are in descending order (components are considered largest-first with
out-of-range components skipped). -/
theorem spec_c5_extract_caps_and_ranges :
    ∀ (p : MaskProcessor) (img : Img) (mfg : Mask) (contours : List Contour),
      (p.extract_rois img mfg contours).length ≤ p.max_extract
      ∧ (∀ r ∈ p.extract_rois img mfg contours,
          p.min_area ≤ r.area ∧ r.area ≤ p.max_area)
      ∧ ((p.extract_rois img mfg contours).map FrameROI.area).Pairwise
          (fun a b : ℚ => b ≤ a) := by
  intro p img mfg contours
  refine ⟨?_, ?_, ?_⟩
  · calc (p.extract_rois img mfg contours).length
        ≤ ((contours.mergeSort (fun a b => decide (b.area ≤ a.area))).take
            p.max_extract).length :=
          extractLoop_length_le p img mfg _ 1
      _ ≤ p.max_extract := by simp [List.length_take]
  · intro r hr
    exact extractLoop_area_bounds p img mfg _ 1 r hr
  · have hdesc := mergeSort_area_desc contours
    have htake : List.Sublist
        (((contours.mergeSort (fun a b => decide (b.area ≤ a.area))).take
          p.max_extract).map Contour.area)
        ((contours.mergeSort (fun a b => decide (b.area ≤ a.area))).map
          Contour.area) :=
      List.Sublist.map Contour.area (List.take_sublist _ _)
    have hloop := extractLoop_area_sublist p img mfg
      ((contours.mergeSort (fun a b => decide (b.area ≤ a.area))).take
        p.max_extract) 1
    exact (hdesc.sublist (hloop.trans htake))

/-- C5 witness: a single in-range contour on a 1×1 image yields one ROI whose
area respects the default bounds. -/
theorem spec_c5_witness :
    mkFrameROI [[255]] 0 0 1 1 600 1 [] [] ∈
      MaskProcessor.extract_rois defaultMaskProcessor img1 [[255]]
        [⟨600, 0, 0, 10, 10⟩]
    ∧ defaultMaskProcessor.min_area ≤ (mkFrameROI [[255]] 0 0 1 1 600 1 [] []).area
    ∧ (mkFrameROI [[255]] 0 0 1 1 600 1 [] []).area ≤
        defaultMaskProcessor.max_area := by
  have hmem : mkFrameROI [[255]] 0 0 1 1 600 1 [] [] ∈
      MaskProcessor.extract_rois defaultMaskProcessor img1 [[255]]
        [⟨600, 0, 0, 10, 10⟩] := by
    simp only [MaskProcessor.extract_rois, List.mergeSort_singleton]
    norm_num [extractLoop, defaultMaskProcessor, mkFrameROI, crop2, img1, mkImg]
  have hb := (spec_c5_extract_caps_and_ranges defaultMaskProcessor img1 [[255]]
    [⟨600, 0, 0, 10, 10⟩]).2.1 _ hmem
  exact ⟨hmem, hb.1, hb.2⟩

/-- C4: one extraction call assigns the strictly increasing 1-based index
sequence `1, 2, …` to the returned ROIs, and subsequent `sort`/`filter`
calls only permute or thin the very same ROI records — no ROI's `idx` field
is ever reassigned. -/
theorem spec_c4_index_stability :
    (∀ (p : MaskProcessor) (img : Img) (mfg : Mask) (contours : List Contour),
      (p.extract_rois img mfg contours).map FrameROI.idx =
        List.range' 1 (p.extract_rois img mfg contours).length)
    ∧ (∀ (rois : List FrameROI) (k : SortKey) (rev : Bool),
        List.Perm (sort_rois rois k rev) rois)
    ∧ (∀ (rois : List FrameROI) (ar asr xr yr : Option (ℚ × ℚ)),
        List.Sublist (filter_rois rois ar asr xr yr) rois) := by
  refine ⟨?_, ?_, ?_⟩
  · intro p img mfg contours
    exact extractLoop_map_idx p img mfg _ 1
  · intro rois k rev
    simp only [sort_rois]
    repeat' split
    all_goals exact List.mergeSort_perm rois _
  · intro rois ar asr xr yr
    induction rois with
    | nil => simp [filter_rois]
    | cons r rest ih =>
      cases h1 : skipGuard ar r.area <;>
        cases h2 : skipGuard asr r.aspect_ratio <;>
        cases h3 : skipGuard xr (r.x : ℚ) <;>
        cases h4 : skipGuard yr (r.y : ℚ) <;>
        simp only [filter_rois, h1, h2, h3, h4, Bool.false_eq_true,
          if_true, if_false] <;>
        first
        | exact List.Sublist.cons₂ r ih
        | exact List.Sublist.cons r ih

/-- A window maximum over {0, 255} values stays in {0, 255}. -/
theorem foldr_max_bin (l : List Nat) (h : ∀ v ∈ l, v = 0 ∨ v = 255) :
    l.foldr max 0 = 0 ∨ l.foldr max 0 = 255 := by
  induction l with
  | nil => left; rfl
  | cons x xs ih =>
    have hx := h x (List.mem_cons_self x xs)
    have hr := ih (fun v hv => h v (List.mem_cons_of_mem x hv))
    simp only [List.foldr_cons]
    rcases hx with rfl | rfl <;> rcases hr with hr | hr <;> omega

/-- A window minimum over {0, 255} values stays in {0, 255}. -/
theorem foldr_min_bin (l : List Nat) (h : ∀ v ∈ l, v = 0 ∨ v = 255) :
    l.foldr min 255 = 0 ∨ l.foldr min 255 = 255 := by
  induction l with
  | nil => right; rfl
  | cons x xs ih =>
    have hx := h x (List.mem_cons_self x xs)
    have hr := ih (fun v hv => h v (List.mem_cons_of_mem x hv))
    simp only [List.foldr_cons]
    rcases hx with rfl | rfl <;> rcases hr with hr | hr <;> omega

/-- `getD` yields a list element or the default. -/
theorem getD_mem_or (l : List α) (n : Nat) (d : α) :
    l.getD n d ∈ l ∨ l.getD n d = d := by
  by_cases h : n < l.length
  · left
    rw [List.getD_eq_getElem l d h]
    exact List.getElem_mem h
  · right
    exact List.getD_eq_default l d (Nat.le_of_not_lt h)

/-- Every value a kernel window reads from a binary mask is 0 or 255. -/
theorem windowVals_bin (m : Mask) (hb : IsBin m) (k i j : Nat) :
    ∀ v ∈ windowVals m k i j, v = 0 ∨ v = 255 := by
  intro v hv
  simp only [windowVals, List.mem_flatMap, List.mem_map] at hv
  obtain ⟨r, _, c, _, rfl⟩ := hv
  rcases getD_mem_or m r [] with hrow | hrow
  · rcases getD_mem_or (m.getD r []) c 0 with hc | hc
    · exact hb _ hrow _ hc
    · left; exact hc
  · left
    rw [hrow]
    rfl

/-- Dilation preserves binary masks. -/
theorem cvDilate_bin (k : Nat) (m : Mask) (hb : IsBin m) : IsBin (cvDilate k m) := by
  intro row hrow v hv
  simp only [cvDilate, List.mem_map, List.mem_range] at hrow
  obtain ⟨i, _, rfl⟩ := hrow
  simp only [List.mem_map, List.mem_range] at hv
  obtain ⟨j, _, rfl⟩ := hv
  exact foldr_max_bin _ (windowVals_bin m hb k i j)

/-- Erosion preserves binary masks. -/
theorem cvErode_bin (k : Nat) (m : Mask) (hb : IsBin m) : IsBin (cvErode k m) := by
  intro row hrow v hv
  simp only [cvErode, List.mem_map, List.mem_range] at hrow
  obtain ⟨i, _, rfl⟩ := hrow
  simp only [List.mem_map, List.mem_range] at hv
  obtain ⟨j, _, rfl⟩ := hv
  exact foldr_min_bin _ (windowVals_bin m hb k i j)

/-- A binary-mask-preserving operation stays preserving under iteration. -/
theorem iterate_bin {f : Mask → Mask} (hf : ∀ m, IsBin m → IsBin (f m)) :
    ∀ (n : Nat) (m : Mask), IsBin m → IsBin (f^[n] m) := by
  intro n
  induction n with
  | zero => intro m hm; simpa using hm
  | succ n ih =>
    intro m hm
    rw [Function.iterate_succ_apply]
    exact ih (f m) (hf m hm)

/-- Closing preserves binary masks. -/
theorem morphClose_bin (k n : Nat) (m : Mask) (hb : IsBin m) :
    IsBin (morphClose k n m) :=
  iterate_bin (cvErode_bin k) n _ (iterate_bin (cvDilate_bin k) n m hb)

/-- Opening preserves binary masks. -/
theorem morphOpen_bin (k n : Nat) (m : Mask) (hb : IsBin m) :
    IsBin (morphOpen k n m) :=
  iterate_bin (cvDilate_bin k) n _ (iterate_bin (cvErode_bin k) n m hb)

/-- The color-distance threshold stage only writes 0 or 255. -/
theorem threshold_bin (img : Img) (samples : List RGB) (t : Int) :
    IsBin (img.pix.map (fun row => row.map (fun px =>
      if minDistSq (rgbOf px) samples > t then (255 : Nat) else 0))) := by
  intro row hrow v hv
  simp only [List.mem_map] at hrow
  obtain ⟨row0, _, rfl⟩ := hrow
  simp only [List.mem_map] at hv
  obtain ⟨px, _, rfl⟩ := hv
  by_cases h : minDistSq (rgbOf px) samples > t
  · right; simp [h]
  · left; simp [h]

/-- C6: whenever `gen_mask` succeeds, every pixel of the produced mask is
exactly 0 or 255, for every input image and parameter setting. -/
theorem spec_c6_mask_binary :
    ∀ (p : MaskProcessor) (img : Img) (m : Mask),
      MaskProcessor.gen_mask p img = Except.ok m →
      ∀ row ∈ m, ∀ v ∈ row, v = 0 ∨ v = 255 := by
  intro p img m hok
  cases hgb : get_bg_samples img with
  | error e =>
    rw [MaskProcessor.gen_mask] at hok
    rw [hgb] at hok
    simp [Bind.bind, Except.bind] at hok
  | ok samples =>
    rw [MaskProcessor.gen_mask] at hok
    rw [hgb] at hok
    simp only [Bind.bind, Except.bind, pure, Except.pure, Except.ok.injEq] at hok
    subst hok
    exact morphOpen_bin _ _ _ (morphClose_bin _ _ _
      (threshold_bin img samples ((p.color_thresh : Int) ^ 2)))

/-- C6 witness: the default parameters on a uniform 1×1 image produce the
all-background mask, whose only pixel is 0 or 255. -/
theorem spec_c6_witness :
    MaskProcessor.gen_mask defaultMaskProcessor img1 = Except.ok [[0]]
    ∧ ((0 : Nat) = 0 ∨ (0 : Nat) = 255) :=
  ⟨rfl, spec_c6_mask_binary defaultMaskProcessor img1 [[0]] rfl [0]
    (by simp) 0 (by simp)⟩

/-- `set_mode` always lands in the requested mode. -/
theorem set_mode_mode (s : MaskEditWidget) (m : Mode) :
    (MaskEditWidget.set_mode s m).mode = m := by
  unfold MaskEditWidget.set_mode
  by_cases h : m = s.mode
  · simp [h]
  · simp only [if_neg h]
    cases m <;> rfl

/-- C2 (amended): when both seed labels are present, running the watershed
action always lands back in `Draw` with the marker map discarded, whether
the algorithm succeeds or raises; when a seed label is missing, the error is
reported to the caller with the entire state — committed mask and history
included — untouched (the editor then *stays* in marker mode, which is what
the amendment concedes). -/
theorem spec_c2_amended :
    ∀ (ws : Img → LabelMap → Except Unit LabelMap) (s : MaskEditWidget)
      (markers : LabelMap),
      s.mode = Mode.watershed_mark →
      s.watershed_markers = some markers →
      ((hasLabel markers 1 = true → hasLabel markers 2 = true →
          s.base_img ≠ none →
          (MaskEditWidget.run_watershed_segmentation ws s).2.mode = Mode.draw
          ∧ (MaskEditWidget.run_watershed_segmentation ws s).2.watershed_markers
              = none)
        ∧ (¬(hasLabel markers 1 = true ∧ hasLabel markers 2 = true) →
          s.base_img ≠ none →
          MaskEditWidget.run_watershed_segmentation ws s =
            (WSOutcome.missingSeeds, s))) := by
  intro ws s markers hmode hmk
  constructor
  · intro h1 h2 hbase
    rcases hb : s.base_img with _ | img
    · exact absurd hb hbase
    · have hguard : (!(hasLabel markers 1) || !(hasLabel markers 2)) = false := by
        simp [h1, h2]
      cases hws : ws img markers with
      | ok m2 =>
        cases hmask : s.mask with
        | none =>
          simp only [MaskEditWidget.run_watershed_segmentation, hmk, hb, hguard,
            Bool.false_eq_true, if_false, hws, hmask]
          exact ⟨set_mode_mode _ _, trivial⟩
        | some cur =>
          simp only [MaskEditWidget.run_watershed_segmentation, hmk, hb, hguard,
            Bool.false_eq_true, if_false, hws, hmask]
          exact ⟨set_mode_mode _ _, trivial⟩
      | error e =>
        simp only [MaskEditWidget.run_watershed_segmentation, hmk, hb, hguard,
          Bool.false_eq_true, if_false, hws]
        exact ⟨set_mode_mode _ _, trivial⟩
  · intro hnot hbase
    rcases hb : s.base_img with _ | img
    · exact absurd hb hbase
    · have hguard : (!(hasLabel markers 1) || !(hasLabel markers 2)) = true := by
        cases h1 : hasLabel markers 1 <;> cases h2 : hasLabel markers 2 <;>
          simp_all
      simp only [MaskEditWidget.run_watershed_segmentation, hmk, hb, hguard,
        if_true]

/-- C2 counterexample: in marker mode with markers drawn but no seeds of one
label, the run action returns early — the editor does *not* return to `Draw`
and the marker map is *not* discarded, refuting the claim's "regardless of
outcome" for this invocation. -/
theorem spec_c2_counterexample :
    ¬((MaskEditWidget.run_watershed_segmentation wsOracle wsNoSeeds).2.mode
        = Mode.draw
      ∧ (MaskEditWidget.run_watershed_segmentation wsOracle wsNoSeeds).2.watershed_markers
        = none) := by
  decide

/-- C2 witness: a fully seeded 2×1 editor lands in `Draw` with markers
cleared, and the seedless editor gets the error reported with its state
returned untouched. -/
theorem spec_c2_witness :
    ((MaskEditWidget.run_watershed_segmentation wsOracle wsSeeded).2.mode
        = Mode.draw
      ∧ (MaskEditWidget.run_watershed_segmentation wsOracle wsSeeded).2.watershed_markers
        = none)
    ∧ MaskEditWidget.run_watershed_segmentation wsOracle wsNoSeeds =
        (WSOutcome.missingSeeds, wsNoSeeds) :=
  ⟨(spec_c2_amended wsOracle wsSeeded [[1], [2]] (by decide) (by decide)).1
      (by decide) (by decide) (by decide),
   (spec_c2_amended wsOracle wsNoSeeds [[0]] (by decide) (by decide)).2
      (by decide) (by decide)⟩

/-- Sanitization leaves no filename-illegal character behind. -/
theorem sanitizeName_no_illegal (l : PyStr) :
    ∀ c ∈ sanitizeName l, c ∉ invalidChars := by
  intro c hc
  simp only [sanitizeName, List.mem_map] at hc
  obtain ⟨c0, _, rfl⟩ := hc
  by_cases h : invalidChars.contains c0
  · simp only [if_pos h]
    decide
  · simp only [if_neg h]
    simpa using h

/-- The basename `splitext` returns is made of characters of its input. -/
theorem splitext_fst_subset (p : PyStr) : ∀ c ∈ (splitext p).1, c ∈ p := by
  intro c hc
  simp only [splitext] at hc
  split at hc
  · exact (List.take_sublist _ _).subset hc
  · exact hc

/-- Appending `.png` and replacing the extension add no illegal character. -/
theorem ensurePng_no_illegal (name : PyStr)
    (h : ∀ c ∈ name, c ∉ invalidChars) :
    ∀ c ∈ ensurePng name, c ∉ invalidChars := by
  intro c hc
  have hpng : ∀ c ∈ (".png").data, c ∉ invalidChars := by decide
  unfold ensurePng at hc
  split at hc
  · rcases List.mem_append.mp hc with hm | hm
    · exact h c hm
    · exact hpng c hm
  · split at hc
    · rcases List.mem_append.mp hc with hm | hm
      · exact h c (splitext_fst_subset name c hm)
      · exact hpng c hm
    · exact h c hc

/-- Every name `ensurePng` returns ends in `.png`, case-insensitively. -/
theorem ensurePng_suffix (name : PyStr) :
    List.IsSuffix ((".png").data) ((ensurePng name).map Char.toLower) := by
  have hlow : ((".png").data).map Char.toLower = (".png").data := by decide
  unfold ensurePng
  split
  · rw [List.map_append, hlow]
    exact List.suffix_append _ _
  · split
    · rw [List.map_append, hlow]
      exact List.suffix_append _ _
    · next hsuf =>
      have hsuf2 : (".png").data.isSuffixOf (List.map Char.toLower name) = true := by
        revert hsuf
        cases (".png").data.isSuffixOf (List.map Char.toLower name) <;> simp
      exact (List.isSuffixOf_iff_suffix).mp hsuf2

/-- A fold of substitutions over exclusively unknown placeholders is the
identity. -/
theorem foldl_substOne_unknown (fmt : PyVal → PyStr → Except Unit PyStr)
    (roi : FrameROI) :
    ∀ (ms : List (PyStr × Option PyStr)) (acc : PyStr),
      (∀ m ∈ ms, lookupPlaceholder m.1 = none) →
      ms.foldl (substOne fmt roi) acc = acc := by
  intro ms
  induction ms with
  | nil => intro acc _; rfl
  | cons m rest ih =>
    intro acc hall
    have hm := hall m (List.mem_cons_self m rest)
    have hstep : substOne fmt roi acc m = acc := by
      unfold substOne
      rw [hm]
    rw [List.foldl_cons, hstep]
    exact ih acc (fun x hx => hall x (List.mem_cons_of_mem m hx))

/-- C7: `render_filename` never lets a failure escape — the result always
exists, carries no filename-illegal character, and ends in `.png`
(case-insensitively, any other extension replaced); templates whose
placeholders are all unrecognized pass through substitution untouched (the
placeholders stay literal); and a placeholder whose format specifier makes
the format engine raise is substituted with the plain `str(value)` fallback. -/
theorem spec_c7_render_name_total :
    (∀ (fmt : PyVal → PyStr → Except Unit PyStr) (t : PyStr) (roi : FrameROI),
      ∀ c ∈ render_filename fmt t roi, c ∉ invalidChars)
    ∧ (∀ (fmt : PyVal → PyStr → Except Unit PyStr) (t : PyStr) (roi : FrameROI),
      List.IsSuffix ((".png").data)
        ((render_filename fmt t roi).map Char.toLower))
    ∧ (∀ (fmt : PyVal → PyStr → Except Unit PyStr) (t : PyStr) (roi : FrameROI),
      (∀ m ∈ findPH t, lookupPlaceholder m.1 = none) →
      render_filename fmt t roi = postProcess t)
    ∧ (∀ (fmt : PyVal → PyStr → Except Unit PyStr) (roi : FrameROI)
        (acc name sp : PyStr) (attr : NameAttr),
      lookupPlaceholder name = some attr →
      fmt (getAttrVal roi attr) sp = Except.error () →
      substOne fmt roi acc (name, some sp) =
        pyReplace acc (phText name (some sp)) (pyStr (getAttrVal roi attr))) := by
  refine ⟨?_, ?_, ?_, ?_⟩
  · intro fmt t roi
    exact ensurePng_no_illegal _ (sanitizeName_no_illegal _)
  · intro fmt t roi
    exact ensurePng_suffix _
  · intro fmt t roi hall
    unfold render_filename
    rw [foldl_substOne_unknown fmt roi (findPH t) t hall]
  · intro fmt roi acc name sp attr hattr hraise
    unfold substOne
    rw [hattr]
    simp only [hraise]

/-- C7 witness: a template with an unknown placeholder passes through
substitution untouched; an always-raising format oracle falls back to the
plain string value; and a rendered name contains its legal characters with
no illegal ones. -/
theorem spec_c7_witness :
    ('f' ∉ invalidChars)
    ∧ render_filename fmtRaises (("[未知].png").data) roi0 =
        postProcess (("[未知].png").data)
    ∧ substOne fmtRaises roi0 (("frame_[索引:03d]").data)
        ((("索引").data), some (("03d").data)) =
      pyReplace (("frame_[索引:03d]").data)
        (phText (("索引").data) (some (("03d").data)))
        (pyStr (getAttrVal roi0 NameAttr.idx)) :=
  ⟨spec_c7_render_name_total.1 fmtRaises (("f.txt").data) roi0 'f' (by decide),
   spec_c7_render_name_total.2.2.1 fmtRaises (("[未知].png").data) roi0
     (by decide),
   spec_c7_render_name_total.2.2.2 fmtRaises roi0 (("frame_[索引:03d]").data)
     (("索引").data) (("03d").data) NameAttr.idx (by decide) (by rfl)⟩

/-- `l[-n:]` is the whole list when the list is short enough. -/
theorem lastN_of_le {l : List α} {n : Nat} (h : l.length ≤ n) : lastN n l = l := by
  unfold lastN
  rw [Nat.sub_eq_zero_of_le h]
  exact List.drop_zero l

/-- Length of a `l[-n:]` slice. -/
theorem length_lastN (n : Nat) (l : List α) :
    (lastN n l).length = l.length - (l.length - n) := by
  simp [lastN]

/-- Re-slicing after an append: keeping the last `n` of an already-capped
list and appending more is the same as capping the full log. -/
theorem lastN_lastN_append (n : Nat) (x y : List α) :
    lastN n (lastN n x ++ y) = lastN n (x ++ y) := by
  rcases Nat.le_total x.length n with h | h
  · rw [lastN_of_le h]
  · unfold lastN
    have hk : x.length - n ≤ x.length := Nat.sub_le _ _
    rw [← List.drop_append_of_le_length hk, List.drop_drop]
    congr 1
    simp only [List.length_append, List.length_drop]
    omega

/-- One commit on a top-of-history state: append the snapshot and keep the
last `MAX_HISTORY_SIZE` entries, pointing at the end. -/
theorem commitMask_good (s : MaskEditWidget) (m : Mask)
    (h1 : s.history ≠ []) (h2 : s.history_idx = s.history.length - 1) :
    commitMask s m =
      { s with mask := some m,
               history := lastN MAX_HISTORY_SIZE (s.history ++ [m]),
               history_idx :=
                 (lastN MAX_HISTORY_SIZE (s.history ++ [m])).length - 1 } := by
  have hlen : 1 ≤ s.history.length := List.length_pos.mpr h1
  unfold commitMask MaskEditWidget.push_history
  simp only
  have hnotrunc : ¬ s.history_idx < s.history.length - 1 := by omega
  rw [if_neg hnotrunc]
  by_cases hcap : (s.history ++ [m]).length > MAX_HISTORY_SIZE
  · rw [if_pos hcap]
  · rw [if_neg hcap]
    have hle : (s.history ++ [m]).length ≤ MAX_HISTORY_SIZE := Nat.le_of_not_lt hcap
    rw [lastN_of_le hle]
    simp only [List.length_append, List.length_singleton]
    congr 1
    omega

/-- A run of consecutive commits keeps exactly the last `MAX_HISTORY_SIZE`
snapshots of the full log, points at the end, and leaves the mode and
GrabCut session state untouched. -/
theorem commitAll_spec (ms : List Mask) :
    ∀ (s : MaskEditWidget), s.history ≠ [] →
      s.history_idx = s.history.length - 1 →
      s.history.length ≤ MAX_HISTORY_SIZE →
      (commitAll s ms).history = lastN MAX_HISTORY_SIZE (s.history ++ ms)
      ∧ (commitAll s ms).history_idx = (commitAll s ms).history.length - 1
      ∧ (commitAll s ms).history ≠ []
      ∧ (commitAll s ms).history.length ≤ MAX_HISTORY_SIZE
      ∧ (commitAll s ms).mode = s.mode
      ∧ (commitAll s ms).gc_initialized = s.gc_initialized
      ∧ (commitAll s ms).gc_mask = s.gc_mask := by
  induction ms with
  | nil =>
    intro s h1 h2 h3
    refine ⟨?_, h2, h1, h3, rfl, rfl, rfl⟩
    rw [List.append_nil, lastN_of_le h3]
    rfl
  | cons m rest ih =>
    intro s h1 h2 h3
    have hstep := commitMask_good s m h1 h2
    have hrw : commitAll s (m :: rest) = commitAll (commitMask s m) rest := rfl
    have hs1hist : (commitMask s m).history =
        lastN MAX_HISTORY_SIZE (s.history ++ [m]) := by rw [hstep]
    have hs1len : (commitMask s m).history.length ≤ MAX_HISTORY_SIZE := by
      rw [hs1hist, length_lastN]
      omega
    have hs1ne : (commitMask s m).history ≠ [] := by
      rw [hs1hist]
      have : (lastN MAX_HISTORY_SIZE (s.history ++ [m])).length ≠ 0 := by
        rw [length_lastN]
        simp only [List.length_append, List.length_singleton]
        simp only [MAX_HISTORY_SIZE]
        omega
      exact fun hnil => this (by rw [hnil]; rfl)
    have hs1idx : (commitMask s m).history_idx =
        (commitMask s m).history.length - 1 := by rw [hstep]
    obtain ⟨ha, hb, hc, hd, he, hf, hg⟩ := ih (commitMask s m) hs1ne hs1idx hs1len
    rw [hrw] at *
    refine ⟨?_, hb, hc, hd, ?_, ?_, ?_⟩
    · rw [ha, hs1hist, lastN_lastN_append]
      rw [List.append_assoc]
      rfl
    · rw [he, hstep]
    · rw [hf, hstep]
    · rw [hg, hstep]

/-- One successful `undo` from a plain drawing state (no GrabCut session):
step the pointer back and restore that snapshot. -/
theorem undo_step (s : MaskEditWidget) (hmode : s.mode = Mode.draw)
    (hgc1 : s.gc_initialized = false) (hgc2 : s.gc_mask = none)
    (hidx : 0 < s.history_idx) :
    MaskEditWidget.undo s =
      (true, { s with history_idx := s.history_idx - 1,
                      mask := some (s.history.getD (s.history_idx - 1) []) }) := by
  unfold MaskEditWidget.undo
  rw [if_pos hidx]
  have hne : ¬ ({ s with
      history_idx := s.history_idx - 1,
      mask := some (s.history.getD (s.history_idx - 1) []),
      gc_initialized := false, gc_mask := none } : MaskEditWidget).mode =
        Mode.grabcut_refine := by
    simp [hmode]
  simp only [hne, if_neg, if_false]
  cases s
  simp_all

/-- `undo` is the identity once the pointer sits at the oldest snapshot. -/
theorem undoN_fix (k : Nat) :
    ∀ s : MaskEditWidget, s.history_idx = 0 → undoN k s = s := by
  induction k with
  | zero => intro s _; rfl
  | succ k ih =>
    intro s h
    have hstep : MaskEditWidget.undo s = (false, s) := by
      unfold MaskEditWidget.undo
      rw [h]
      simp
    have : undoN (k + 1) s = undoN k (MaskEditWidget.undo s).2 :=
      Function.iterate_succ_apply _ _ _
    rw [this, hstep]
    exact ih s h

/-- Enough consecutive `undo`s from a plain drawing state stop at the oldest
retained snapshot: pointer 0, mask = first stored snapshot. -/
theorem undoN_reaches_zero :
    ∀ (k : Nat) (s : MaskEditWidget),
      s.mode = Mode.draw → s.gc_initialized = false → s.gc_mask = none →
      1 ≤ s.history_idx → s.history_idx ≤ k →
      undoN k s =
        { s with history_idx := 0, mask := some (s.history.getD 0 []) } := by
  intro k
  induction k with
  | zero =>
    intro s _ _ _ h1 h2
    omega
  | succ k ih =>
    intro s hm hg1 hg2 h1 h2
    have hstep := undo_step s hm hg1 hg2 (by omega)
    have hrw : undoN (k + 1) s = undoN k (MaskEditWidget.undo s).2 :=
      Function.iterate_succ_apply _ _ _
    rw [hrw, hstep]
    by_cases hz : s.history_idx - 1 = 0
    · rw [undoN_fix k _ (by simp [hz])]
      rw [hz]
    · rw [ih _ (by simp [hm]) (by simp [hg1]) (by simp [hg2])
        (by simp; omega) (by simp; omega)]

/-- The head of a dropped list is the element at the drop offset. -/
theorem getD_zero_drop (l : List α) (k : Nat) (d : α) :
    (l.drop k).getD 0 d = l.getD k d := by
  simp [List.getD_eq_getElem?_getD, List.getElem?_drop]

/-- C1 (amended): the 32-snapshot cap is the mask *editor widget's* history
law: committing truncates everything after the pointer, appends the new
snapshot, points at the end, and keeps at most 32 snapshots by evicting the
oldest; after N > 32 consecutive commits exactly the last 32 snapshots are
retained and repeated undo stops at the oldest *retained* snapshot (pointer
0, further undo refused).  The ROI-level history
(`FrameROI.add_mask_to_history`) truncates and appends identically but has
no cap — which is what the counterexample forces the claim to concede. -/
theorem spec_c1_amended :
    (∀ (s : MaskEditWidget) (m : Mask), s.mask = some m →
      s.history_idx < s.history.length →
      (MaskEditWidget.push_history s).history =
        lastN MAX_HISTORY_SIZE (s.history.take (s.history_idx + 1) ++ [m])
      ∧ (MaskEditWidget.push_history s).history_idx =
          (MaskEditWidget.push_history s).history.length - 1
      ∧ (MaskEditWidget.push_history s).history.length ≤ MAX_HISTORY_SIZE)
    ∧ (∀ (s0 : MaskEditWidget) (m0 : Mask) (ms : List Mask),
      s0.history = [m0] → s0.history_idx = 0 → s0.mode = Mode.draw →
      s0.gc_initialized = false → s0.gc_mask = none →
      ms.length > MAX_HISTORY_SIZE →
      (commitAll s0 ms).history = lastN MAX_HISTORY_SIZE (m0 :: ms)
      ∧ (commitAll s0 ms).history.length = MAX_HISTORY_SIZE
      ∧ (undoN (ms.length - 1) (commitAll s0 ms)).history_idx = 0
      ∧ (undoN (ms.length - 1) (commitAll s0 ms)).mask =
          some ((m0 :: ms).getD (ms.length + 1 - MAX_HISTORY_SIZE) [])
      ∧ (MaskEditWidget.undo
          (undoN (ms.length - 1) (commitAll s0 ms))).1 = false) := by
  constructor
  · intro s m hm hidx
    unfold MaskEditWidget.push_history
    simp only [hm]
    by_cases htr : s.history_idx < s.history.length - 1
    · rw [if_pos htr]
      by_cases hcap :
          (s.history.take (s.history_idx + 1) ++ [m]).length > MAX_HISTORY_SIZE
      · rw [if_pos hcap]
        refine ⟨rfl, rfl, ?_⟩
        rw [length_lastN]
        omega
      · rw [if_neg hcap]
        have hle := Nat.le_of_not_lt hcap
        refine ⟨(lastN_of_le hle).symm, ?_, hle⟩
        simp only [List.length_append, List.length_take, List.length_singleton]
        omega
    · rw [if_neg htr]
      have hall : s.history.take (s.history_idx + 1) = s.history :=
        List.take_of_length_le (by omega)
      rw [hall]
      by_cases hcap : (s.history ++ [m]).length > MAX_HISTORY_SIZE
      · rw [if_pos hcap]
        refine ⟨rfl, rfl, ?_⟩
        rw [length_lastN]
        omega
      · rw [if_neg hcap]
        have hle := Nat.le_of_not_lt hcap
        refine ⟨(lastN_of_le hle).symm, ?_, hle⟩
        simp only [List.length_append, List.length_singleton]
        omega
  · intro s0 m0 ms hh hi hmode hg1 hg2 hN
    obtain ⟨ha, hb, hc, hd, he, hf, hg⟩ :=
      commitAll_spec ms s0 (by rw [hh]; exact List.cons_ne_nil m0 [])
        (by rw [hh, hi]; rfl) (by rw [hh]; simp [MAX_HISTORY_SIZE])
    rw [hh] at ha
    have hsingle : ([m0] ++ ms) = m0 :: ms := List.singleton_append
    rw [hsingle] at ha
    have hlen : (commitAll s0 ms).history.length = MAX_HISTORY_SIZE := by
      rw [ha, length_lastN]
      simp only [List.length_cons, MAX_HISTORY_SIZE] at *
      omega
    have hidx31 : (commitAll s0 ms).history_idx = MAX_HISTORY_SIZE - 1 := by
      rw [hb, hlen]
    have hzero := undoN_reaches_zero (ms.length - 1) (commitAll s0 ms)
      (by rw [he, hmode]) (by rw [hf, hg1]) (by rw [hg, hg2])
      (by rw [hidx31]; simp [MAX_HISTORY_SIZE])
      (by rw [hidx31]; simp only [MAX_HISTORY_SIZE] at *; omega)
    refine ⟨ha, hlen, ?_, ?_, ?_⟩
    · rw [hzero]
    · rw [hzero]
      simp only
      rw [ha]
      unfold lastN
      rw [getD_zero_drop]
      congr 2
    · rw [hzero]
      unfold MaskEditWidget.undo
      simp

set_option maxRecDepth 4000 in
/-- C1 counterexample: the ROI-level mask-edit history has no 32-snapshot
cap — 33 commits on a fresh ROI leave all 34 snapshots stored, refuting the
claim that every ROI mask-edit history is kept at 32 snapshots at most. -/
theorem spec_c1_counterexample :
    ¬ ((List.foldl (fun r i => FrameROI.add_mask_to_history r [[i]])
        roi0 (List.range 33)).mask_edit_history.length ≤ 32) := by
  decide

/-- C1 witness: 33 concrete commits on a fresh editor retain exactly the
last 32 snapshots, 32 undos stop at the oldest retained snapshot, and one
concrete commit obeys the truncate/append/cap equation. -/
theorem spec_c1_witness :
    ((commitAll widget0 ms33).history =
        lastN MAX_HISTORY_SIZE ([[0]] :: ms33)
      ∧ (commitAll widget0 ms33).history.length = MAX_HISTORY_SIZE
      ∧ (undoN (ms33.length - 1) (commitAll widget0 ms33)).history_idx = 0
      ∧ (undoN (ms33.length - 1) (commitAll widget0 ms33)).mask =
          some (([[0]] :: ms33).getD (ms33.length + 1 - MAX_HISTORY_SIZE) [])
      ∧ (MaskEditWidget.undo
          (undoN (ms33.length - 1) (commitAll widget0 ms33))).1 = false)
    ∧ ((MaskEditWidget.push_history sPush).history =
        lastN MAX_HISTORY_SIZE (sPush.history.take (sPush.history_idx + 1)
          ++ [[[7]]])
      ∧ (MaskEditWidget.push_history sPush).history_idx =
          (MaskEditWidget.push_history sPush).history.length - 1
      ∧ (MaskEditWidget.push_history sPush).history.length ≤
          MAX_HISTORY_SIZE) :=
  ⟨spec_c1_amended.2 widget0 [[0]] ms33 (by decide) (by decide) (by decide)
      (by decide) (by decide) (by decide),
   spec_c1_amended.1 sPush [[7]] (by decide) (by decide)⟩
